import Mathlib

/-!
Verification development for the workadventure area-synchronization core.

The embedded code:
* `src/map-storage/src/Commands/Area/UpdateAreaMapStorageCommand.ts`
  (class `UpdateAreaMapStorageCommand`, method `execute`, helper `notifyAreaUpdate`,
  module constants `limit = pLimit(10)` and `_axios`);
* the `AdminController` HTTP handlers `getRoomsList` and `dispatchGlobalEvent`
  (shipped alongside `src/tests/tests/map_editor_area_rights.spec.ts`).

External npm dependencies that the claims depend on (`fast-json-patch`'s `compare`
and the `p-limit` semaphore) are not part of the repository source; they are
modelled from the specification, each marked `Modelled from the spec:` in its
doc comment.
-/

/-- One configurable attribute of an area, as used by the command
(`AreaDataProperty` from the external `@workadventure/map-editor` package).
The command reads `id`, `ressourceUrl` and `serverData`; `name` stands for the
remaining payload fields of the property.  `serverData`, when present, is a
non-falsy JSON payload, modelled opaquely as a `String`; its JS truthiness is
therefore its presence.  `ressourceUrl` is a string whose JS truthiness also
rules out the empty string. -/
structure AreaDataProperty where
  id : String
  ressourceUrl : Option String
  serverData : Option String
  name : String
  deriving DecidableEq, Repr

/-- The area configuration (`AreaData`): identity, the ordered property list,
and `name` standing for the non-property fields that are irrelevant to
resource sync. -/
structure AreaData where
  id : String
  name : String
  properties : List AreaDataProperty
  deriving DecidableEq, Repr

/-- A field of one `AreaDataProperty`, for JSON-pointer paths that reach inside
a property. -/
inductive PField where
  | pfId
  | pfUrl
  | pfServerData
  | pfName
  deriving DecidableEq, Repr

/-- JSON-pointer paths over an `AreaData` document, as produced by diffing two
configurations: the top-level scalar fields, the `properties` array, one of its
entries, or one field of one entry.  The JS code tests paths with the regex
`^/properties/*` (a prefix test); on these structured paths that test is
`PPath.underProperties`. -/
inductive PPath where
  | topId
  | topName
  | propsRoot
  | propsIdx (i : Nat)
  | propsField (i : Nat) (f : PField)
  deriving DecidableEq, Repr

/-- Models the regex test `operation.path.match(new RegExp("^/properties/*"))`
of the execute method: every path at or below the `properties` collection
matches, the top-level scalar paths do not. -/
def PPath.underProperties : PPath → Bool
  | .propsRoot => true
  | .propsIdx _ => true
  | .propsField _ _ => true
  | _ => false

/-- Models the index-extracting regex `^\/properties\/(\d+)\/*` of the replace
branch: the array index right after `/properties/`, when the path has one. -/
def PPath.propIndex : PPath → Option Nat
  | .propsIdx i => some i
  | .propsField i _ => some i
  | _ => none

/-- JSON values carried by patch operations over an `AreaData` document:
a scalar string, one property object, or the whole property array. -/
inductive JsonVal where
  | str (s : String)
  | prop (p : AreaDataProperty)
  | propList (ps : List AreaDataProperty)
  deriving DecidableEq, Repr

/-- The three operation kinds `fast-json-patch`'s `compare` emits. -/
inductive OpKind where
  | add
  | remove
  | replace
  deriving DecidableEq, Repr

/-- One JSON-patch operation (`{op, path, value}`); remove operations carry no
value. -/
structure PatchOp where
  op : OpKind
  path : PPath
  value : Option JsonVal
  deriving DecidableEq, Repr

/-- JS truthiness filter for an optional string (`if (!ressourceUrl)`):
`undefined` and the empty string are falsy; a truthy value is returned. -/
def truthyString : Option String → Option String
  | some s => if s = "" then none else some s
  | none => none

namespace jsonpatch

/-- Models `fast-json-patch`'s `getValueByPointer` on an `AreaData` document for
the structured path shapes; used by the remove branch against `oldConfig`. -/
def getValueByPointer (doc : AreaData) : PPath → Option JsonVal
  | .topId => some (.str doc.id)
  | .topName => some (.str doc.name)
  | .propsRoot => some (.propList doc.properties)
  | .propsIdx i => (doc.properties.get? i).map .prop
  | .propsField i f =>
      (doc.properties.get? i).bind fun p =>
        match f with
        | .pfId => some (.str p.id)
        | .pfName => some (.str p.name)
        | .pfUrl => p.ressourceUrl.map .str
        | .pfServerData => p.serverData.map .str

/-- Modelled from the spec: the `ChangeOp` of §3 — the diff over the
`properties` collection reports `Add`, `Remove` and `Replace(index, property)`
operations (`fast-json-patch`'s `compare` is an external npm dependency, not
repository source).  Each op carries the array index its JSON-pointer path
names. -/
inductive ChangeOp where
  | addProp (i : Nat) (p : AreaDataProperty)
  | removeProp (i : Nat)
  | replaceProp (i : Nat) (p : AreaDataProperty)
  deriving DecidableEq, Repr

/-- Add operations for a run of appended properties, indices ascending from
`i`. -/
def addsFrom (i : Nat) : List AreaDataProperty → List ChangeOp
  | [] => []
  | p :: ps => .addProp i p :: addsFrom (i + 1) ps

/-- Remove operations for `k` surplus previous entries starting at index `i`,
emitted from the highest index down (the order `compare` uses, so that
sequential application is index-correct). -/
def removesDown (i : Nat) : Nat → List ChangeOp
  | 0 => []
  | k + 1 => .removeProp (i + k) :: removesDown i k

/-- Modelled from the spec: the structural diff of §4.1 over two property
lists, positions aligned from index `i` — a replace where both lists hold a
slot with differing content, removes (highest index first) where only the
previous list goes on, adds where only the proposed list goes on. -/
def diffProps (i : Nat) : List AreaDataProperty → List AreaDataProperty → List ChangeOp
  | [], ns => addsFrom i ns
  | os, [] => removesDown i os.length
  | o :: os, n :: ns =>
      if o = n then diffProps (i + 1) os ns
      else .replaceProp i n :: diffProps (i + 1) os ns

/-- Standard JSON-patch application of one `ChangeOp` to a property list:
set at index, erase at index, insert at index. -/
def applyChangeOp (ps : List AreaDataProperty) : ChangeOp → List AreaDataProperty
  | .addProp i p => List.insertIdx i p ps
  | .removeProp i => ps.eraseIdx i
  | .replaceProp i p => ps.set i p

/-- Sequential application of a whole ChangeOp list. -/
def applyChangeOps (ps : List AreaDataProperty) (ops : List ChangeOp) : List AreaDataProperty :=
  ops.foldl applyChangeOp ps

/-- Rendering of one property-collection `ChangeOp` as the JSON-patch operation
the command receives. -/
def ChangeOp.toPatchOp : ChangeOp → PatchOp
  | .addProp i p => ⟨.add, .propsIdx i, some (.prop p)⟩
  | .removeProp i => ⟨.remove, .propsIdx i, none⟩
  | .replaceProp i p => ⟨.replace, .propsIdx i, some (.prop p)⟩

/-- Modelled from the spec: `jsonpatch.compare(oldConfig, newConfig)` — inert
replace operations for differing top-level non-property fields, plus the
property-collection ChangeOps of `diffProps`. -/
def compare (oldC newC : AreaData) : List PatchOp :=
  (if oldC.id = newC.id then [] else [⟨.replace, .topId, some (.str newC.id)⟩]) ++
    (if oldC.name = newC.name then [] else [⟨.replace, .topName, some (.str newC.name)⟩]) ++
    (diffProps 0 oldC.properties newC.properties).map ChangeOp.toPatchOp

end jsonpatch

namespace UpdateAreaMapStorageCommand

/-- Width of the shared concurrency limiter: `const limit = pLimit(10)`
(line 10 of the command's module). -/
def limitWidth : Nat := 10

/-- One HTTP call pushed through `limit` by the reduce over the patch:
`_axios.post(ressourceUrl, operation.value)` for the add branch (the closure
also captures the op's property `id`), `_axios.delete(ressourceUrl, {data:
value})` for the remove branch, `_axios.patch(ressourcesUrl, property)` for the
replace branch. -/
inductive ScheduledCall where
  | createCall (url : String) (body : AreaDataProperty) (opId : String)
  | deleteCall (url : String) (body : AreaDataProperty)
  | updateCall (url : String) (body : AreaDataProperty)
  deriving DecidableEq, Repr

/-- The mutable state the method touches: `this.oldConfig` (only read),
`this.newConfig` (mutated in place) and the local `shouldNotifyUpdate` flag. -/
structure ExecState where
  oldConfig : AreaData
  newConfig : AreaData
  shouldNotifyUpdate : Bool
  deriving DecidableEq, Repr

/-- Lines 46–48: `newConfig.properties?.find(property => property.id === id)`
followed by `propertyFromNewConfig.serverData = undefined` — clears the
serverData of the first property with the given id, leaving the rest alone. -/
def clearServerDataOfFirst (pid : String) : List AreaDataProperty → List AreaDataProperty
  | [] => []
  | q :: qs =>
      if q.id = pid then { q with serverData := none } :: qs
      else q :: clearServerDataOfFirst pid qs

/-- Lines 36–78, the synchronous part of the add branch: when the path matches
`^/properties/*` and the op value is a property with a truthy `ressourceUrl`,
clear the caller-supplied serverData both on the op value (the POST body) and
on the first matching property of `newConfig`, and schedule the create call.
Everything else is inert. -/
def addBranch (op : PatchOp) (props : List AreaDataProperty) :
    List AreaDataProperty × List ScheduledCall :=
  if op.path.underProperties then
    match op.value with
    | some (JsonVal.prop p) =>
        match truthyString p.ressourceUrl with
        | some u =>
            (clearServerDataOfFirst p.id props,
              [ScheduledCall.createCall u { p with serverData := none } p.id])
        | none => (props, [])
    | _ => (props, [])
  else (props, [])

/-- Lines 80–87, the remove branch: look the removed value up in `oldConfig`
via `getValueByPointer`; when it is truthy and carries a truthy
`ressourceUrl`, schedule the delete call with the pre-removal property as
body.  No state is mutated. -/
def removeBranch (op : PatchOp) (oldC : AreaData) : List ScheduledCall :=
  if op.path.underProperties then
    match jsonpatch.getValueByPointer oldC op.path with
    | some (JsonVal.prop v) =>
        match truthyString v.ressourceUrl with
        | some u => [ScheduledCall.deleteCall u v]
        | none => []
    | _ => []
  else []

/-- Lines 100–103: the cached serverData for a property id — the running
in-memory area index `gameMap.getGameMapAreas()?.getArea(oldConfig.id)
?.properties.find(propertyToFind => propertyToFind.id === property.id)
?.serverData`, with `cache` standing for the two optional lookups. -/
def cachedServerData (cache : String → Option (List AreaDataProperty))
    (areaId pid : String) : Option String :=
  ((cache areaId).bind fun cprops => cprops.find? fun q => q.id == pid).bind
    fun q => q.serverData

/-- Lines 89–113, the replace branch: extract the array index from the path,
read that slot of `newConfig.properties`, repopulate its `serverData` from the
in-memory area cache by property id, write the slot back, and schedule the
update call when the `ressourceUrl` is truthy.  An out-of-bounds index (which
would make the JS throw on `property.id`) cannot arise from a
compare-generated patch, because replace ops only target slots present in both
configurations; the model treats that unreachable case as inert. -/
def replaceBranch (cache : String → Option (List AreaDataProperty)) (op : PatchOp)
    (oldC : AreaData) (props : List AreaDataProperty) :
    List AreaDataProperty × List ScheduledCall :=
  if op.path.underProperties then
    match op.path.propIndex with
    | none => (props, [])
    | some i =>
        match props.get? i with
        | none => (props, [])
        | some property =>
            let property1 :=
              { property with serverData := cachedServerData cache oldC.id property.id }
            (props.set i property1,
              match truthyString property1.ressourceUrl with
              | some u => [ScheduledCall.updateCall u property1]
              | none => [])
  else (props, [])

/-- One step of `patch.reduce` (lines 35–115).  The three kind tests of the JS
are mutually exclusive, so they are dispatched on `op.op`; each branch may
rewrite `newConfig.properties` and append scheduled calls, and nothing else
changes. -/
def scheduleOp (cache : String → Option (List AreaDataProperty))
    (acc : ExecState × List ScheduledCall) (op : PatchOp) :
    ExecState × List ScheduledCall :=
  let st := acc.1
  let r : List AreaDataProperty × List ScheduledCall :=
    match op.op with
    | OpKind.add => addBranch op st.newConfig.properties
    | OpKind.remove => (st.newConfig.properties, removeBranch op st.oldConfig)
    | OpKind.replace => replaceBranch cache op st.oldConfig st.newConfig.properties
  ({ st with newConfig := { st.newConfig with properties := r.1 } }, acc.2 ++ r.2)

/-- The whole reduce: fold `scheduleOp` over the patch, starting from the
given state and no scheduled calls. -/
def runSchedule (cache : String → Option (List AreaDataProperty)) (st : ExecState)
    (patch : List PatchOp) : ExecState × List ScheduledCall :=
  patch.foldl (scheduleOp cache) (st, [])

/-- The calls one edit schedules, in submission order. -/
def scheduledCalls (cache : String → Option (List AreaDataProperty))
    (oldC newC : AreaData) : List ScheduledCall :=
  (runSchedule cache ⟨oldC, newC, false⟩ (jsonpatch.compare oldC newC)).2

/-- Outcome of one axios call as the command observes it: the promise rejected
(`failure`), resolved with a falsy body (`emptyBody`), resolved with a body
`AreaDataProperty.safeParse` rejects (`invalidBody`), or resolved with a
schema-valid body (`validBody`). -/
inductive HttpResult where
  | failure
  | emptyBody
  | invalidBody
  | validBody (d : AreaDataProperty)
  deriving DecidableEq, Repr

/-- Completion handler of one settled call (lines 50–76).  Only a create call
with a schema-valid body changes state: it sets `shouldNotifyUpdate` (line 62,
before `serverData` is even inspected) and maps `newConfig.properties`,
replacing every property whose id matches the op's id by the parsed response
body — but only when that body's `serverData` is truthy (line 65).  Delete and
update completions ignore their response. -/
def applyCompletion (st : ExecState) (call : ScheduledCall) (res : HttpResult) : ExecState :=
  match call, res with
  | .createCall _ _ opId, .validBody d =>
      { st with
        shouldNotifyUpdate := true
        newConfig :=
          { st.newConfig with
            properties :=
              st.newConfig.properties.map fun q =>
                if q.id = opId ∧ d.serverData.isSome then d else q } }
  | _, _ => st

/-- Apply the completions of all scheduled calls in submission order; the i-th
call's outcome is `oracle i`.  The per-call handlers of distinct ids commute,
so this linearization fixes the final settled state. -/
def applyCompletions (oracle : Nat → HttpResult) : Nat → ExecState → List ScheduledCall → ExecState
  | _, st, [] => st
  | i, st, c :: cs => applyCompletions oracle (i + 1) (applyCompletion st c (oracle i)) cs

/-- Whether any of the first `n` call outcomes is a rejection; this is what
makes `Promise.all(promises)` reject. -/
def anyCallFailed (oracle : Nat → HttpResult) (n : Nat) : Bool :=
  (List.range n).any fun i => decide (oracle i = HttpResult.failure)

/-- Whether every one of the first `n` call outcomes is a rejection. -/
def allCallsFailed (oracle : Nat → HttpResult) (n : Nat) : Bool :=
  (List.range n).all fun i => decide (oracle i = HttpResult.failure)

/-- Observable outcome of one `execute()` run: the two configs after the edit,
the final notification flag, whether `notifyAreaUpdate` was invoked, whether
the catch block logged the aggregate error, whether that error escaped to the
caller, and whether `super.execute()` (the local commit) ran. -/
structure ExecOutcome where
  finalOld : AreaData
  finalNew : AreaData
  shouldNotifyUpdate : Bool
  notified : Bool
  errorLogged : Bool
  errorSurfaced : Bool
  localEditCommitted : Bool
  deriving DecidableEq, Repr

/-- The `execute` method (lines 31–128): diff the configs, run the reduce that
pre-mutates `newConfig` and schedules the calls, settle every call, and then
`try { await Promise.all; if (shouldNotifyUpdate) notifyAreaUpdate() } catch
{ console.error(...) }` followed unconditionally by `return super.execute()`.
A rejected call therefore suppresses the notification and is logged, but is
never rethrown, and the local edit always commits. -/
def execute (cache : String → Option (List AreaDataProperty)) (oldC newC : AreaData)
    (oracle : Nat → HttpResult) : ExecOutcome :=
  let r := runSchedule cache ⟨oldC, newC, false⟩ (jsonpatch.compare oldC newC)
  let failed := anyCallFailed oracle r.2.length
  let st2 := applyCompletions oracle 0 r.1 r.2
  { finalOld := st2.oldConfig
    finalNew := st2.newConfig
    shouldNotifyUpdate := st2.shouldNotifyUpdate
    notified := !failed && st2.shouldNotifyUpdate
    errorLogged := failed
    errorSurfaced := false
    localEditCommitted := true }

/-- Classifier: is this scheduled call the create call of an add op? -/
def callIsCreate : ScheduledCall → Bool
  | .createCall _ _ _ => true
  | _ => false

/-- Classifier: did this call resolve with a non-empty, schema-valid body? -/
def resultIsValidBody : HttpResult → Bool
  | .validBody _ => true
  | _ => false

/-- Condition taken from the spec's words for claim C2: the call resolved with
a schema-valid body whose `serverData` field is present. -/
def resultHasServerData : HttpResult → Bool
  | .validBody d => d.serverData.isSome
  | _ => false

/-- The disjunction the completion handlers accumulate into
`shouldNotifyUpdate`: some call from position `i` on is a create call whose
outcome is a schema-valid body. -/
def notifySet (oracle : Nat → HttpResult) : Nat → List ScheduledCall → Bool
  | _, [] => false
  | i, c :: cs => (callIsCreate c && resultIsValidBody (oracle i)) || notifySet oracle (i + 1) cs

end UpdateAreaMapStorageCommand

namespace AdminController

/-- One outcome of `Promise.allSettled`: the per-room gRPC call either
fulfilled with a value or rejected (a deadline exceeded within the 1000 ms
budget also surfaces as a rejection). -/
inductive Settled (α : Type) where
  | fulfilled (v : α)
  | rejected (reason : String)
  deriving DecidableEq, Repr

/-- The room list one back server reports: `roomDescription` as
(roomId, nbUsers) pairs. -/
def RoomsList : Type := List (String × Nat)

/-- Lines 849–851: `rooms[room.roomId] = room.nbUsers` for each entry of one
fulfilled result — record assignment, so a later entry for the same key
overwrites the earlier value. -/
def addRooms (m : String → Option Nat) (descr : List (String × Nat)) : String → Option Nat :=
  descr.foldl (fun acc rd => fun k => if k = rd.1 then some rd.2 else acc k) m

/-- Lines 847–858: walk the settled results in order, merging each fulfilled
room list into the record and counting one warning per rejected result. -/
def collectRooms (results : List (Settled (List (String × Nat))))
    (m : String → Option Nat) (w : Nat) : (String → Option Nat) × Nat :=
  match results with
  | [] => (m, w)
  | .fulfilled descr :: rest => collectRooms rest (addRooms m descr) w
  | .rejected _ :: rest => collectRooms rest m (w + 1)

/-- The `/rooms` handler core (method `getRoomsList`, lines 816–865): consult
the registry (`apiClientRepository.getAllClients()`, whose failure is the only
error that escapes), settle every per-room `getRooms` call, and aggregate.
The result is the rooms record plus the number of warnings logged; the
response is always sent when the registry was consulted. -/
def getRoomsList (clients : Except String (List (Settled (List (String × Nat))))) :
    Except String ((String → Option Nat) × Nat) :=
  clients.map fun rs => collectRooms rs (fun _ => none) 0

/-- Lines 948–955: the loop over the settled results that logs (counts) one
warning per rejected result, threading the running count. -/
def warnCountFrom {α : Type} (w : Nat) : List (Settled α) → Nat
  | [] => w
  | Settled.fulfilled _ :: rest => warnCountFrom w rest
  | Settled.rejected _ :: rest => warnCountFrom (w + 1) rest

/-- The `/global/event` handler core (method `dispatchGlobalEvent`, lines
903–962): settle every per-room `dispatchGlobalEvent` call, count one warning
per rejection, and always answer "ok" when the registry was consulted. -/
def dispatchGlobalEvent (clients : Except String (List (Settled Unit))) :
    Except String (String × Nat) :=
  clients.map fun rs => ("ok", warnCountFrom 0 rs)

/-- The values of the fulfilled results, in order. -/
def fulfilledValues {α : Type} : List (Settled α) → List α
  | [] => []
  | .fulfilled v :: rest => v :: fulfilledValues rest
  | .rejected _ :: rest => fulfilledValues rest

/-- The number of rejected results. -/
def rejectedCount {α : Type} : List (Settled α) → Nat
  | [] => 0
  | .fulfilled _ :: rest => rejectedCount rest
  | .rejected _ :: rest => rejectedCount rest + 1

/-- All (roomId, nbUsers) entries reported by fulfilled results, in processing
order. -/
def flattenFulfilled (rs : List (Settled (List (String × Nat)))) : List (String × Nat) :=
  (fulfilledValues rs).flatten

/-- The value attached to the last occurrence of a key in an association
list. -/
def lookupLast (l : List (String × Nat)) (k : String) : Option Nat :=
  (l.reverse.find? fun e => decide (e.1 = k)).map fun e => e.2

end AdminController

namespace pLimit

/-- Modelled from the spec: `p-limit` is an external npm dependency; §2 and
§4.2(5) describe it as a fixed-width semaphore — at most `width` tasks run at
once, excess submissions queue in submission order and are released FIFO as
running tasks complete. -/
structure LimiterState where
  activeCount : Nat
  queue : List Nat
  deriving DecidableEq, Repr

/-- Events the limiter reacts to: a new task is submitted (identified by its
submission index), or some running task completes. -/
inductive LimiterEvent where
  | submit (id : Nat)
  | complete
  deriving DecidableEq, Repr

/-- One limiter transition, returning the task(s) started by the event: a
submission under the width runs at once, otherwise it queues; a completion
frees a slot and immediately starts the queue head, if any. -/
def limiterStep (width : Nat) (st : LimiterState) (ev : LimiterEvent) :
    LimiterState × List Nat :=
  match ev with
  | .submit id =>
      if st.activeCount < width then ({ st with activeCount := st.activeCount + 1 }, [id])
      else ({ st with queue := st.queue ++ [id] }, [])
  | .complete =>
      match st.activeCount, st.queue with
      | 0, _ => (st, [])
      | a + 1, [] => ({ activeCount := a, queue := [] }, [])
      | a + 1, h :: t => ({ activeCount := a + 1, queue := t }, [h])

/-- Run a trace of events from a given (state, already-started tasks)
accumulator. -/
def limiterRunFrom (width : Nat) (acc : LimiterState × List Nat)
    (evs : List LimiterEvent) : LimiterState × List Nat :=
  evs.foldl
    (fun acc ev =>
      let r := limiterStep width acc.1 ev
      (r.1, acc.2 ++ r.2))
    acc

/-- Run a trace of events from the idle limiter, collecting the start order. -/
def limiterRun (width : Nat) (evs : List LimiterEvent) : LimiterState × List Nat :=
  limiterRunFrom width (⟨0, []⟩, []) evs

/-- The ids of a trace's submissions, in submission order. -/
def submittedIds : List LimiterEvent → List Nat
  | [] => []
  | .submit id :: rest => id :: submittedIds rest
  | .complete :: rest => submittedIds rest

end pLimit

theorem eraseIdxAppendLast {α : Type} (c : List α) (x : α) :
    (c ++ [x]).eraseIdx c.length = c := by
  induction c with
  | nil => rfl
  | cons a c ih => simpa [List.eraseIdx] using ih

theorem setAppendCons {α : Type} (c : List α) (x y : α) (os : List α) :
    (c ++ y :: os).set c.length x = c ++ x :: os := by
  induction c with
  | nil => rfl
  | cons a c ih => simp [List.set, ih]

theorem getAppendCons {α : Type} (c : List α) (x : α) (os : List α) :
    (c ++ x :: os).get? c.length = some x := by
  induction c with
  | nil => rfl
  | cons a c ih => simpa [List.get?] using ih

namespace jsonpatch

theorem applyChangeOps_nil (ps : List AreaDataProperty) : applyChangeOps ps [] = ps := rfl

theorem applyChangeOps_cons (ps : List AreaDataProperty) (op : ChangeOp) (ops : List ChangeOp) :
    applyChangeOps ps (op :: ops) = applyChangeOps (applyChangeOp ps op) ops := rfl

theorem applyChangeOps_addsFrom (ns : List AreaDataProperty) :
    ∀ c : List AreaDataProperty, applyChangeOps c (addsFrom c.length ns) = c ++ ns := by
  induction ns with
  | nil => intro c; simp [addsFrom, applyChangeOps]
  | cons n ns ih =>
      intro c
      rw [addsFrom, applyChangeOps_cons]
      have h1 : applyChangeOp c (ChangeOp.addProp c.length n) = c ++ [n] := by
        simp [applyChangeOp, List.insertIdx_length_self]
      rw [h1]
      have hl : c.length + 1 = (c ++ [n]).length := by simp
      rw [hl, ih (c ++ [n])]
      simp

theorem applyChangeOps_removesDown (os : List AreaDataProperty) :
    ∀ c : List AreaDataProperty, applyChangeOps (c ++ os) (removesDown c.length os.length) = c := by
  induction os using List.reverseRecOn with
  | nil => intro c; simp [removesDown, applyChangeOps]
  | append_singleton os o ih =>
      intro c
      have hlen : (os ++ [o]).length = os.length + 1 := by simp
      rw [hlen, removesDown, applyChangeOps_cons]
      have h1 : applyChangeOp (c ++ (os ++ [o])) (ChangeOp.removeProp (c.length + os.length)) =
          c ++ os := by
        have hassoc : c ++ (os ++ [o]) = (c ++ os) ++ [o] := by simp
        have hl2 : c.length + os.length = (c ++ os).length := by simp
        rw [applyChangeOp, hassoc, hl2]
        exact eraseIdxAppendLast (c ++ os) o
      rw [h1]
      exact ih c

theorem diffProps_roundtrip (os : List AreaDataProperty) :
    ∀ ns c : List AreaDataProperty, applyChangeOps (c ++ os) (diffProps c.length os ns) = c ++ ns := by
  induction os with
  | nil =>
      intro ns c
      have := applyChangeOps_addsFrom ns c
      simpa [diffProps] using this
  | cons o os ih =>
      intro ns c
      cases ns with
      | nil =>
          have := applyChangeOps_removesDown (o :: os) c
          simpa [diffProps] using this
      | cons n ns =>
          by_cases h : o = n
          · rw [diffProps, if_pos h]
            have hc : c ++ o :: os = (c ++ [o]) ++ os := by simp
            have hl : c.length + 1 = (c ++ [o]).length := by simp
            rw [hc, hl, ih ns (c ++ [o])]
            simp [h]
          · rw [diffProps, if_neg h, applyChangeOps_cons]
            have h1 : applyChangeOp (c ++ o :: os) (ChangeOp.replaceProp c.length n) =
                c ++ n :: os := by
              rw [applyChangeOp]
              exact setAppendCons c n o os
            rw [h1]
            have hc : c ++ n :: os = (c ++ [n]) ++ os := by simp
            have hl : c.length + 1 = (c ++ [n]).length := by simp
            rw [hc, hl, ih ns (c ++ [n])]
            simp

end jsonpatch

/-- Claim C6: for every pair of area configurations, applying the ordered
ChangeOp sequence produced by the diff back to the previous property list
reproduces the proposed property list exactly (round-trip law). -/
theorem claim6_diff_roundtrip (a b : AreaData) :
    jsonpatch.applyChangeOps a.properties (jsonpatch.diffProps 0 a.properties b.properties) =
      b.properties := by
  have := jsonpatch.diffProps_roundtrip a.properties b.properties []
  simpa using this

namespace UpdateAreaMapStorageCommand

theorem scheduleOp_oldConfig (cache : String → Option (List AreaDataProperty))
    (acc : ExecState × List ScheduledCall) (op : PatchOp) :
    ((scheduleOp cache acc op).1).oldConfig = acc.1.oldConfig := rfl

theorem scheduleOp_shouldNotify (cache : String → Option (List AreaDataProperty))
    (acc : ExecState × List ScheduledCall) (op : PatchOp) :
    ((scheduleOp cache acc op).1).shouldNotifyUpdate = acc.1.shouldNotifyUpdate := rfl

theorem foldl_scheduleOp_oldConfig (cache : String → Option (List AreaDataProperty))
    (ops : List PatchOp) :
    ∀ acc : ExecState × List ScheduledCall,
      ((ops.foldl (scheduleOp cache) acc).1).oldConfig = acc.1.oldConfig := by
  induction ops with
  | nil => intro acc; rfl
  | cons op ops ih => intro acc; rw [List.foldl_cons, ih, scheduleOp_oldConfig]

theorem foldl_scheduleOp_shouldNotify (cache : String → Option (List AreaDataProperty))
    (ops : List PatchOp) :
    ∀ acc : ExecState × List ScheduledCall,
      ((ops.foldl (scheduleOp cache) acc).1).shouldNotifyUpdate = acc.1.shouldNotifyUpdate := by
  induction ops with
  | nil => intro acc; rfl
  | cons op ops ih => intro acc; rw [List.foldl_cons, ih, scheduleOp_shouldNotify]

theorem runSchedule_oldConfig (cache : String → Option (List AreaDataProperty))
    (st : ExecState) (patch : List PatchOp) :
    ((runSchedule cache st patch).1).oldConfig = st.oldConfig :=
  foldl_scheduleOp_oldConfig cache patch (st, [])

theorem runSchedule_shouldNotify (cache : String → Option (List AreaDataProperty))
    (st : ExecState) (patch : List PatchOp) :
    ((runSchedule cache st patch).1).shouldNotifyUpdate = st.shouldNotifyUpdate :=
  foldl_scheduleOp_shouldNotify cache patch (st, [])

theorem applyCompletion_oldConfig (st : ExecState) (c : ScheduledCall) (r : HttpResult) :
    (applyCompletion st c r).oldConfig = st.oldConfig := by
  cases c <;> cases r <;> rfl

theorem applyCompletion_shouldNotify (st : ExecState) (c : ScheduledCall) (r : HttpResult) :
    (applyCompletion st c r).shouldNotifyUpdate =
      (st.shouldNotifyUpdate || (callIsCreate c && resultIsValidBody r)) := by
  cases c <;> cases r <;> simp [applyCompletion, callIsCreate, resultIsValidBody]

theorem applyCompletions_oldConfig (oracle : Nat → HttpResult) (cs : List ScheduledCall) :
    ∀ (i : Nat) (st : ExecState), (applyCompletions oracle i st cs).oldConfig = st.oldConfig := by
  induction cs with
  | nil => intro i st; rfl
  | cons c cs ih =>
      intro i st
      rw [applyCompletions, ih, applyCompletion_oldConfig]

theorem applyCompletions_shouldNotify (oracle : Nat → HttpResult) (cs : List ScheduledCall) :
    ∀ (i : Nat) (st : ExecState),
      (applyCompletions oracle i st cs).shouldNotifyUpdate =
        (st.shouldNotifyUpdate || notifySet oracle i cs) := by
  induction cs with
  | nil => intro i st; simp [applyCompletions, notifySet]
  | cons c cs ih =>
      intro i st
      rw [applyCompletions, ih, applyCompletion_shouldNotify, notifySet, Bool.or_assoc]

theorem notifySet_eq_true_iff (oracle : Nat → HttpResult) (cs : List ScheduledCall) :
    ∀ i : Nat,
      notifySet oracle i cs = true ↔
        ∃ j c, cs.get? j = some c ∧ callIsCreate c = true ∧
          resultIsValidBody (oracle (i + j)) = true := by
  induction cs with
  | nil => intro i; simp [notifySet]
  | cons c cs ih =>
      intro i
      rw [notifySet]
      simp only [Bool.or_eq_true, Bool.and_eq_true]
      constructor
      · rintro (⟨h1, h2⟩ | h)
        · exact ⟨0, c, rfl, h1, by simpa using h2⟩
        · obtain ⟨j, c2, hg, hc, hr⟩ := (ih (i + 1)).1 h
          refine ⟨j + 1, c2, by simpa using hg, hc, ?_⟩
          have harith : i + 1 + j = i + (j + 1) := by omega
          rwa [harith] at hr
      · rintro ⟨j, c2, hg, hc, hr⟩
        cases j with
        | zero =>
            left
            have : c = c2 := by simpa using hg
            subst this
            exact ⟨hc, by simpa using hr⟩
        | succ j =>
            right
            apply (ih (i + 1)).2
            refine ⟨j, c2, by simpa using hg, hc, ?_⟩
            have harith : i + (j + 1) = i + 1 + j := by omega
            rwa [harith] at hr

theorem scheduleOp_inert (cache : String → Option (List AreaDataProperty))
    (acc : ExecState × List ScheduledCall) (op : PatchOp)
    (h : op.path.underProperties = false) : scheduleOp cache acc op = acc := by
  cases hk : op.op <;>
    simp [scheduleOp, addBranch, removeBranch, replaceBranch, hk, h]

theorem foldl_scheduleOp_filter (cache : String → Option (List AreaDataProperty))
    (ops : List PatchOp) :
    ∀ acc : ExecState × List ScheduledCall,
      ops.foldl (scheduleOp cache) acc =
        (ops.filter fun op => op.path.underProperties).foldl (scheduleOp cache) acc := by
  induction ops with
  | nil => intro acc; rfl
  | cons op ops ih =>
      intro acc
      cases h : op.path.underProperties with
      | true => rw [List.foldl_cons, List.filter_cons, if_pos (by simp [h]), List.foldl_cons, ih]
      | false =>
          rw [List.foldl_cons, scheduleOp_inert cache acc op h, List.filter_cons,
            if_neg (by simp [h]), ih]

end UpdateAreaMapStorageCommand

open UpdateAreaMapStorageCommand

/-- Claim C8: `execute` never mutates the previous configuration — the
`oldConfig` held in the command's state is identical, field by field (including
every property's `serverData`), before and after the edit; only `newConfig` is
rewritten. -/
theorem claim8_previous_not_mutated (cache : String → Option (List AreaDataProperty))
    (oldC newC : AreaData) (oracle : Nat → HttpResult) :
    (execute cache oldC newC oracle).finalOld = oldC := by
  show (applyCompletions oracle 0
      (runSchedule cache ⟨oldC, newC, false⟩ (jsonpatch.compare oldC newC)).1
      (runSchedule cache ⟨oldC, newC, false⟩ (jsonpatch.compare oldC newC)).2).oldConfig = oldC
  rw [applyCompletions_oldConfig, runSchedule_oldConfig]

/-- Claim C7: for every (previous, proposed) pair, dropping from the diff every
operation whose path does not target the `properties` collection changes
neither the scheduled resource calls nor the resulting state — only
properties-targeting ops can give rise to a create, delete or update call, and
all other ops are inert for resource sync. -/
theorem claim7_non_property_ops_inert (cache : String → Option (List AreaDataProperty))
    (oldC newC : AreaData) :
    runSchedule cache ⟨oldC, newC, false⟩ (jsonpatch.compare oldC newC) =
      runSchedule cache ⟨oldC, newC, false⟩
        ((jsonpatch.compare oldC newC).filter fun op => op.path.underProperties) :=
  foldl_scheduleOp_filter cache (jsonpatch.compare oldC newC) (⟨oldC, newC, false⟩, [])

/-- Claim C2, amended: after all scheduled calls settle, `shouldNotifyUpdate`
is true if and only if at least one Add-op create call resolved with a
non-empty, schema-valid body — whether or not that body carries `serverData`
(line 62 sets the flag before `serverData` is inspected).  Malformed or empty
bodies and every Remove or Replace call leave the flag unchanged. -/
theorem claim2_amended_notify_iff (cache : String → Option (List AreaDataProperty))
    (oldC newC : AreaData) (oracle : Nat → HttpResult) :
    (execute cache oldC newC oracle).shouldNotifyUpdate = true ↔
      ∃ j c, (scheduledCalls cache oldC newC).get? j = some c ∧
        callIsCreate c = true ∧ resultIsValidBody (oracle j) = true := by
  show (applyCompletions oracle 0
      (runSchedule cache ⟨oldC, newC, false⟩ (jsonpatch.compare oldC newC)).1
      (runSchedule cache ⟨oldC, newC, false⟩ (jsonpatch.compare oldC newC)).2).shouldNotifyUpdate
        = true ↔ _
  rw [applyCompletions_shouldNotify, runSchedule_shouldNotify]
  simp only [Bool.false_or]
  have := notifySet_eq_true_iff oracle
    (runSchedule cache ⟨oldC, newC, false⟩ (jsonpatch.compare oldC newC)).2 0
  simpa [scheduledCalls] using this

/-- Claim C2 is false as stated: on this concrete edit the single create call
resolves with a schema-valid body whose `serverData` is absent, yet
`shouldNotifyUpdate` ends up true (the claim predicts false). -/
theorem claim2_refuted :
    (execute (fun _ => none) ⟨"area1", "A", []⟩
        ⟨"area1", "A", [⟨"p1", some "u", none, "lbl"⟩]⟩
        (fun _ => HttpResult.validBody ⟨"p1", some "u", none, "lbl"⟩)).shouldNotifyUpdate = true
      ∧ (scheduledCalls (fun _ => none) ⟨"area1", "A", []⟩
          ⟨"area1", "A", [⟨"p1", some "u", none, "lbl"⟩]⟩).length = 1
      ∧ resultHasServerData (HttpResult.validBody ⟨"p1", some "u", none, "lbl"⟩) = false := by
  decide


theorem execute_errorLogged (cache : String → Option (List AreaDataProperty))
    (oldC newC : AreaData) (oracle : Nat → HttpResult) :
    (execute cache oldC newC oracle).errorLogged =
      anyCallFailed oracle (scheduledCalls cache oldC newC).length := rfl

theorem execute_errorSurfaced (cache : String → Option (List AreaDataProperty))
    (oldC newC : AreaData) (oracle : Nat → HttpResult) :
    (execute cache oldC newC oracle).errorSurfaced = false := rfl

theorem execute_localEditCommitted (cache : String → Option (List AreaDataProperty))
    (oldC newC : AreaData) (oracle : Nat → HttpResult) :
    (execute cache oldC newC oracle).localEditCommitted = true := rfl

theorem execute_notified (cache : String → Option (List AreaDataProperty))
    (oldC newC : AreaData) (oracle : Nat → HttpResult) :
    (execute cache oldC newC oracle).notified =
      (!anyCallFailed oracle (scheduledCalls cache oldC newC).length &&
        (execute cache oldC newC oracle).shouldNotifyUpdate) := rfl

/-- Claim C1 is false as stated: on this concrete edit the single scheduled
resource call rejects — so every call of the edit failed — yet the error is
not surfaced to the caller and the local edit still commits
(`super.execute()` runs). -/
theorem claim1_refuted :
    (scheduledCalls (fun _ => none) ⟨"area1", "A", []⟩
        ⟨"area1", "A", [⟨"p1", some "u", none, "lbl"⟩]⟩).length = 1
      ∧ allCallsFailed (fun _ => HttpResult.failure)
          (scheduledCalls (fun _ => none) ⟨"area1", "A", []⟩
            ⟨"area1", "A", [⟨"p1", some "u", none, "lbl"⟩]⟩).length = true
      ∧ (execute (fun _ => none) ⟨"area1", "A", []⟩
          ⟨"area1", "A", [⟨"p1", some "u", none, "lbl"⟩]⟩
          (fun _ => HttpResult.failure)).localEditCommitted = true
      ∧ (execute (fun _ => none) ⟨"area1", "A", []⟩
          ⟨"area1", "A", [⟨"p1", some "u", none, "lbl"⟩]⟩
          (fun _ => HttpResult.failure)).errorSurfaced = false := by
  decide

/-- Claim C1, amended: when at least one call was scheduled and every
scheduled resource call failed with a raised error, `execute` suppresses the
notification and logs the aggregate error, but the error is caught rather than
surfaced to the caller and the local edit still commits (the behaviour §7(b)
of the spec records as the current one). -/
theorem claim1_amended_total_failure (cache : String → Option (List AreaDataProperty))
    (oldC newC : AreaData) (oracle : Nat → HttpResult)
    (hcalls : scheduledCalls cache oldC newC ≠ [])
    (hfail : allCallsFailed oracle (scheduledCalls cache oldC newC).length = true) :
    (execute cache oldC newC oracle).notified = false ∧
      (execute cache oldC newC oracle).errorLogged = true ∧
      (execute cache oldC newC oracle).errorSurfaced = false ∧
      (execute cache oldC newC oracle).localEditCommitted = true := by
  have hlen : 0 < (scheduledCalls cache oldC newC).length := List.length_pos.mpr hcalls
  have h0 : (0 : Nat) ∈ List.range (scheduledCalls cache oldC newC).length :=
    List.mem_range.mpr hlen
  have hany : anyCallFailed oracle (scheduledCalls cache oldC newC).length = true := by
    rw [anyCallFailed, List.any_eq_true]
    rw [allCallsFailed, List.all_eq_true] at hfail
    exact ⟨0, h0, hfail 0 h0⟩
  refine ⟨?_, ?_, execute_errorSurfaced cache oldC newC oracle,
    execute_localEditCommitted cache oldC newC oracle⟩
  · rw [execute_notified, hany]
    simp
  · rw [execute_errorLogged, hany]

/-- Witness for claim C1's amended theorem at the concrete all-failed edit. -/
theorem claim1_amended_witness :
    (scheduledCalls (fun _ => none) ⟨"area1", "A", []⟩
        ⟨"area1", "A", [⟨"p1", some "u", none, "lbl"⟩]⟩ ≠ [])
      ∧ allCallsFailed (fun _ => HttpResult.failure)
          (scheduledCalls (fun _ => none) ⟨"area1", "A", []⟩
            ⟨"area1", "A", [⟨"p1", some "u", none, "lbl"⟩]⟩).length = true
      ∧ ((execute (fun _ => none) ⟨"area1", "A", []⟩
            ⟨"area1", "A", [⟨"p1", some "u", none, "lbl"⟩]⟩
            (fun _ => HttpResult.failure)).notified = false ∧
          (execute (fun _ => none) ⟨"area1", "A", []⟩
            ⟨"area1", "A", [⟨"p1", some "u", none, "lbl"⟩]⟩
            (fun _ => HttpResult.failure)).errorLogged = true ∧
          (execute (fun _ => none) ⟨"area1", "A", []⟩
            ⟨"area1", "A", [⟨"p1", some "u", none, "lbl"⟩]⟩
            (fun _ => HttpResult.failure)).errorSurfaced = false ∧
          (execute (fun _ => none) ⟨"area1", "A", []⟩
            ⟨"area1", "A", [⟨"p1", some "u", none, "lbl"⟩]⟩
            (fun _ => HttpResult.failure)).localEditCommitted = true) :=
  ⟨by decide, by decide,
    claim1_amended_total_failure (fun _ => none) ⟨"area1", "A", []⟩
      ⟨"area1", "A", [⟨"p1", some "u", none, "lbl"⟩]⟩ (fun _ => HttpResult.failure)
      (by decide) (by decide)⟩

theorem diffProps_append (xs : List AreaDataProperty) :
    ∀ (i : Nat) (ys : List AreaDataProperty),
      jsonpatch.diffProps i xs (xs ++ ys) = jsonpatch.addsFrom (i + xs.length) ys := by
  induction xs with
  | nil => intro i ys; simp [jsonpatch.diffProps]
  | cons x xs ih =>
      intro i ys
      rw [List.cons_append, jsonpatch.diffProps, if_pos rfl, ih (i + 1) ys]
      congr 1
      simp [List.length_cons]
      omega

theorem clearFirst_append_fresh (pid : String) (r : AreaDataProperty)
    (qs : List AreaDataProperty) (h : ∀ q ∈ qs, q.id ≠ pid) (hr : r.id = pid) :
    clearServerDataOfFirst pid (qs ++ [r]) = qs ++ [{ r with serverData := none }] := by
  induction qs with
  | nil => simp [clearServerDataOfFirst, hr]
  | cons q qs ih =>
      have hq : q.id ≠ pid := h q (by simp)
      rw [List.cons_append, clearServerDataOfFirst, if_neg hq,
        ih fun x hx => h x (by simp [hx])]
      simp

theorem map_id_of_fresh (opId : String) (d : AreaDataProperty)
    (qs : List AreaDataProperty) (h : ∀ q ∈ qs, q.id ≠ opId) :
    (qs.map fun q => if q.id = opId ∧ d.serverData.isSome then d else q) = qs := by
  induction qs with
  | nil => rfl
  | cons q qs ih =>
      have hq : q.id ≠ opId := h q (by simp)
      rw [List.map_cons, if_neg fun hc => hq hc.1, ih fun x hx => h x (by simp [hx])]

/-- Claim C3, amended: for an Add op with a truthy `ressourceUrl` whose create
call resolves with a schema-valid body, the reconciled property at that id is
the cleared proposed property when the response's `serverData` is absent, and
is the response body replacing the property wholesale — every field, not just
`serverData` — when the response's `serverData` is present.  Every other
property is untouched. -/
theorem claim3_amended_add_reconciliation (cache : String → Option (List AreaDataProperty))
    (oldC : AreaData) (p d : AreaDataProperty) (u : String) (oracle : Nat → HttpResult)
    (hfresh : ∀ q ∈ oldC.properties, q.id ≠ p.id)
    (hurl : truthyString p.ressourceUrl = some u)
    (hresp : oracle 0 = HttpResult.validBody d) :
    (execute cache oldC ⟨oldC.id, oldC.name, oldC.properties ++ [p]⟩ oracle).finalNew.properties
      = oldC.properties ++ [if d.serverData.isSome then d else { p with serverData := none }] := by
  have hdiff : jsonpatch.diffProps 0 oldC.properties (oldC.properties ++ [p]) =
      [jsonpatch.ChangeOp.addProp oldC.properties.length p] := by
    rw [diffProps_append oldC.properties 0 [p]]
    simp [jsonpatch.addsFrom]
  have hcomp : jsonpatch.compare oldC ⟨oldC.id, oldC.name, oldC.properties ++ [p]⟩ =
      [⟨OpKind.add, PPath.propsIdx oldC.properties.length, some (JsonVal.prop p)⟩] := by
    simp [jsonpatch.compare, hdiff, jsonpatch.ChangeOp.toPatchOp]
  have hclear : clearServerDataOfFirst p.id (oldC.properties ++ [p]) =
      oldC.properties ++ [{ p with serverData := none }] :=
    clearFirst_append_fresh p.id p oldC.properties hfresh rfl
  have hrun : runSchedule cache ⟨oldC, ⟨oldC.id, oldC.name, oldC.properties ++ [p]⟩, false⟩
      (jsonpatch.compare oldC ⟨oldC.id, oldC.name, oldC.properties ++ [p]⟩) =
      (⟨oldC, ⟨oldC.id, oldC.name, oldC.properties ++ [{ p with serverData := none }]⟩, false⟩,
        [ScheduledCall.createCall u { p with serverData := none } p.id]) := by
    rw [hcomp]
    simp [runSchedule, scheduleOp, addBranch, PPath.underProperties, hurl, hclear]
  have hfinal : (execute cache oldC ⟨oldC.id, oldC.name, oldC.properties ++ [p]⟩
        oracle).finalNew.properties =
      ((applyCompletions oracle 0
        (runSchedule cache ⟨oldC, ⟨oldC.id, oldC.name, oldC.properties ++ [p]⟩, false⟩
          (jsonpatch.compare oldC ⟨oldC.id, oldC.name, oldC.properties ++ [p]⟩)).1
        (runSchedule cache ⟨oldC, ⟨oldC.id, oldC.name, oldC.properties ++ [p]⟩, false⟩
          (jsonpatch.compare oldC ⟨oldC.id, oldC.name,
            oldC.properties ++ [p]⟩)).2).newConfig).properties := rfl
  rw [hfinal, hrun]
  rw [applyCompletions, applyCompletions, hresp]
  have hmap : (oldC.properties.map fun q =>
      if q.id = p.id ∧ d.serverData.isSome then d else q) = oldC.properties :=
    map_id_of_fresh p.id d oldC.properties hfresh
  simp [applyCompletion, List.map_append, hmap]

/-- Claim C3 is false as stated: on this concrete edit the create call's
schema-valid response carries `serverData` but also a different `name`; the
reconciled property is the response body wholesale (name "labelB"), not the
proposed property with only `serverData` replaced (name "labelA"). -/
theorem claim3_refuted :
    (execute (fun _ => none) ⟨"area1", "A", []⟩
        ⟨"area1", "A", [⟨"p1", some "u", none, "labelA"⟩]⟩
        (fun _ => HttpResult.validBody ⟨"p1", some "u", some "SD", "labelB"⟩)).finalNew.properties
      = [⟨"p1", some "u", some "SD", "labelB"⟩]
    ∧ ([(⟨"p1", some "u", some "SD", "labelB"⟩ : AreaDataProperty)] ≠
        [(⟨"p1", some "u", some "SD", "labelA"⟩ : AreaDataProperty)]) := by
  decide

/-- Witness for claim C3's amended theorem at a concrete add whose response
carries `serverData`. -/
theorem claim3_amended_witness :
    (∀ q ∈ ([] : List AreaDataProperty), q.id ≠ "p1")
    ∧ truthyString (some "u") = some "u"
    ∧ HttpResult.validBody (⟨"p1", some "u", some "SD", "labelB"⟩ : AreaDataProperty) =
        HttpResult.validBody ⟨"p1", some "u", some "SD", "labelB"⟩
    ∧ (execute (fun _ => none) ⟨"area1", "A", []⟩
        ⟨"area1", "A", [⟨"p1", some "u", none, "labelA"⟩]⟩
        (fun _ => HttpResult.validBody ⟨"p1", some "u", some "SD", "labelB"⟩)).finalNew.properties
      = [⟨"p1", some "u", some "SD", "labelB"⟩] :=
  ⟨by decide, by decide, rfl,
    claim3_amended_add_reconciliation (fun _ => none) ⟨"area1", "A", []⟩
      ⟨"p1", some "u", none, "labelA"⟩ ⟨"p1", some "u", some "SD", "labelB"⟩ "u"
      (fun _ => HttpResult.validBody ⟨"p1", some "u", some "SD", "labelB"⟩)
      (by decide) (by decide) (by decide)⟩

theorem diffProps_self (xs : List AreaDataProperty) :
    ∀ i : Nat, jsonpatch.diffProps i xs xs = [] := by
  induction xs with
  | nil => intro i; rfl
  | cons x xs ih => intro i; rw [jsonpatch.diffProps, if_pos rfl, ih (i + 1)]

theorem diffProps_replace_mid (A : List AreaDataProperty) :
    ∀ (i : Nat) (q q1 : AreaDataProperty) (B : List AreaDataProperty), q ≠ q1 →
      jsonpatch.diffProps i (A ++ q :: B) (A ++ q1 :: B) =
        [jsonpatch.ChangeOp.replaceProp (i + A.length) q1] := by
  induction A with
  | nil =>
      intro i q q1 B hne
      rw [List.nil_append, List.nil_append, jsonpatch.diffProps, if_neg hne,
        diffProps_self B (i + 1)]
      simp
  | cons a A ih =>
      intro i q q1 B hne
      rw [List.cons_append, List.cons_append, jsonpatch.diffProps, if_pos rfl,
        ih (i + 1) q q1 B hne]
      congr 2
      simp [List.length_cons]
      omega

theorem applyCompletion_non_create (st : ExecState) (c : ScheduledCall) (r : HttpResult)
    (h : callIsCreate c = false) : applyCompletion st c r = st := by
  cases c <;> cases r <;> simp_all [callIsCreate, applyCompletion]

theorem applyCompletions_non_create (oracle : Nat → HttpResult) (cs : List ScheduledCall)
    (h : ∀ c ∈ cs, callIsCreate c = false) :
    ∀ (i : Nat) (st : ExecState), applyCompletions oracle i st cs = st := by
  induction cs with
  | nil => intro i st; rfl
  | cons c cs ih =>
      intro i st
      rw [applyCompletions, applyCompletion_non_create st c (oracle i) (h c (by simp)),
        ih (fun x hx => h x (by simp [hx]))]

/-- Claim C5: for a Replace op on the property at a slot, the command
repopulates that property's `serverData` from the in-memory area cache entry
whose `id` matches the edited property's `id` — never by positional index and
never from a different property — before the update call (whose body already
carries the repopulated value) goes out; with an untruthy `ressourceUrl` no
call is scheduled but the repopulation still happens. -/
theorem claim5_replace_serverdata_by_id (cache : String → Option (List AreaDataProperty))
    (aid aname : String) (A B : List AreaDataProperty) (q q1 : AreaDataProperty)
    (oracle : Nat → HttpResult) (hne : q ≠ q1) :
    (execute cache ⟨aid, aname, A ++ q :: B⟩ ⟨aid, aname, A ++ q1 :: B⟩
        oracle).finalNew.properties =
      A ++ { q1 with serverData := cachedServerData cache aid q1.id } :: B
    ∧ scheduledCalls cache ⟨aid, aname, A ++ q :: B⟩ ⟨aid, aname, A ++ q1 :: B⟩ =
      (match truthyString q1.ressourceUrl with
        | some u =>
            [ScheduledCall.updateCall u { q1 with serverData := cachedServerData cache aid q1.id }]
        | none => []) := by
  have hcomp : jsonpatch.compare ⟨aid, aname, A ++ q :: B⟩ ⟨aid, aname, A ++ q1 :: B⟩ =
      [⟨OpKind.replace, PPath.propsIdx A.length, some (JsonVal.prop q1)⟩] := by
    simp [jsonpatch.compare, diffProps_replace_mid A 0 q q1 B hne, jsonpatch.ChangeOp.toPatchOp]
  have hrun : runSchedule cache ⟨⟨aid, aname, A ++ q :: B⟩, ⟨aid, aname, A ++ q1 :: B⟩, false⟩
      (jsonpatch.compare ⟨aid, aname, A ++ q :: B⟩ ⟨aid, aname, A ++ q1 :: B⟩) =
      (⟨⟨aid, aname, A ++ q :: B⟩,
          ⟨aid, aname, A ++ { q1 with serverData := cachedServerData cache aid q1.id } :: B⟩,
          false⟩,
        (match truthyString q1.ressourceUrl with
          | some u =>
              [ScheduledCall.updateCall u
                { q1 with serverData := cachedServerData cache aid q1.id }]
          | none => [])) := by
    rw [hcomp]
    have hget : (A ++ q1 :: B).get? A.length = some q1 := getAppendCons A q1 B
    have hset : (A ++ q1 :: B).set A.length
        { q1 with serverData := cachedServerData cache aid q1.id } =
        A ++ { q1 with serverData := cachedServerData cache aid q1.id } :: B :=
      setAppendCons A { q1 with serverData := cachedServerData cache aid q1.id } q1 B
    simp only [runSchedule, List.foldl_cons, List.foldl_nil, scheduleOp, replaceBranch,
      PPath.underProperties, PPath.propIndex, hget, hset, eq_self_iff_true, if_true,
      List.nil_append]
  have hcalls : scheduledCalls cache ⟨aid, aname, A ++ q :: B⟩ ⟨aid, aname, A ++ q1 :: B⟩ =
      (match truthyString q1.ressourceUrl with
        | some u =>
            [ScheduledCall.updateCall u { q1 with serverData := cachedServerData cache aid q1.id }]
        | none => []) := by
    rw [scheduledCalls, hrun]
  refine ⟨?_, hcalls⟩
  have hfinal : (execute cache ⟨aid, aname, A ++ q :: B⟩ ⟨aid, aname, A ++ q1 :: B⟩
        oracle).finalNew.properties =
      ((applyCompletions oracle 0
        (runSchedule cache ⟨⟨aid, aname, A ++ q :: B⟩, ⟨aid, aname, A ++ q1 :: B⟩, false⟩
          (jsonpatch.compare ⟨aid, aname, A ++ q :: B⟩ ⟨aid, aname, A ++ q1 :: B⟩)).1
        (runSchedule cache ⟨⟨aid, aname, A ++ q :: B⟩, ⟨aid, aname, A ++ q1 :: B⟩, false⟩
          (jsonpatch.compare ⟨aid, aname, A ++ q :: B⟩
            ⟨aid, aname, A ++ q1 :: B⟩)).2).newConfig).properties := rfl
  rw [hfinal, hrun]
  cases htr : truthyString q1.ressourceUrl with
  | none => rfl
  | some u =>
      rw [applyCompletions, applyCompletion_non_create _ _ _ (by rfl), applyCompletions]

/-- Witness for claim C5 at a concrete replace: the cache holds the matching
id "p1" at position 1 with serverData "S", while position 0 (the edited
slot's position) holds a different property with serverData "T"; the
repopulated value is "S", the id match, not "T". -/
theorem claim5_witness :
    ((⟨"p1", some "u", none, "old"⟩ : AreaDataProperty) ≠ ⟨"p1", some "u", none, "new"⟩)
    ∧ ((execute
          (fun s => if s = "area1" then
            some [⟨"zz", none, some "T", "c0"⟩, ⟨"p1", some "u2", some "S", "c1"⟩] else none)
          ⟨"area1", "A", [⟨"p1", some "u", none, "old"⟩]⟩
          ⟨"area1", "A", [⟨"p1", some "u", none, "new"⟩]⟩
          (fun _ => HttpResult.emptyBody)).finalNew.properties
        = [⟨"p1", some "u", some "S", "new"⟩]
      ∧ scheduledCalls
          (fun s => if s = "area1" then
            some [⟨"zz", none, some "T", "c0"⟩, ⟨"p1", some "u2", some "S", "c1"⟩] else none)
          ⟨"area1", "A", [⟨"p1", some "u", none, "old"⟩]⟩
          ⟨"area1", "A", [⟨"p1", some "u", none, "new"⟩]⟩
        = [ScheduledCall.updateCall "u" ⟨"p1", some "u", some "S", "new"⟩]) :=
  ⟨by decide,
    claim5_replace_serverdata_by_id
      (fun s => if s = "area1" then
        some [⟨"zz", none, some "T", "c0"⟩, ⟨"p1", some "u2", some "S", "c1"⟩] else none)
      "area1" "A" [] [] ⟨"p1", some "u", none, "old"⟩ ⟨"p1", some "u", none, "new"⟩
      (fun _ => HttpResult.emptyBody) (by decide)⟩

namespace AdminController

theorem collectRooms_spec (rs : List (Settled (List (String × Nat)))) :
    ∀ (m : String → Option Nat) (w : Nat),
      collectRooms rs m w = ((fulfilledValues rs).foldl addRooms m, w + rejectedCount rs) := by
  induction rs with
  | nil => intro m w; simp [collectRooms, fulfilledValues, rejectedCount]
  | cons r rest ih =>
      intro m w
      cases r with
      | fulfilled v =>
          rw [collectRooms, ih (addRooms m v) w]
          simp [fulfilledValues, rejectedCount]
      | rejected reason =>
          rw [collectRooms, ih m (w + 1)]
          simp only [fulfilledValues, rejectedCount, Prod.mk.injEq, true_and]
          omega

theorem warnCountFrom_eq {α : Type} (rs : List (Settled α)) :
    ∀ w : Nat, warnCountFrom w rs = w + rejectedCount rs := by
  induction rs with
  | nil => intro w; simp [warnCountFrom, rejectedCount]
  | cons r rest ih =>
      intro w
      cases r with
      | fulfilled v => rw [warnCountFrom, ih w]; simp [rejectedCount]
      | rejected reason =>
          rw [warnCountFrom, ih (w + 1)]
          simp only [rejectedCount]
          omega

theorem addRooms_cons (m : String → Option Nat) (rd : String × Nat)
    (rest : List (String × Nat)) :
    addRooms m (rd :: rest) = addRooms (fun k => if k = rd.1 then some rd.2 else m k) rest := rfl

theorem lookupLast_append (l1 l2 : List (String × Nat)) (k : String) :
    lookupLast (l1 ++ l2) k =
      (match lookupLast l2 k with
        | some v => some v
        | none => lookupLast l1 k) := by
  cases h : (l2.reverse.find? fun e => decide (e.1 = k)) <;>
    simp [lookupLast, List.reverse_append, List.find?_append, h, Option.or]

theorem lookupLast_singleton (rd : String × Nat) (k : String) :
    lookupLast [rd] k = (if rd.1 = k then some rd.2 else none) := by
  by_cases hk : rd.1 = k <;> simp [lookupLast, List.find?, hk]

theorem addRooms_lookupLast (descr : List (String × Nat)) :
    ∀ (m : String → Option Nat) (k : String),
      addRooms m descr k =
        (match lookupLast descr k with
          | some v => some v
          | none => m k) := by
  induction descr with
  | nil => intro m k; simp [addRooms, lookupLast]
  | cons rd rest ih =>
      intro m k
      rw [addRooms_cons, ih]
      have hsplit : lookupLast (rd :: rest) k =
          (match lookupLast rest k with
            | some v => some v
            | none => lookupLast [rd] k) := lookupLast_append [rd] rest k
      rw [hsplit, lookupLast_singleton]
      cases h : lookupLast rest k with
      | some v => rfl
      | none =>
          by_cases hk : k = rd.1
          · simp [hk]
          · have hk2 : ¬ (rd.1 = k) := fun h2 => hk h2.symm
            simp [hk, hk2]

theorem foldl_addRooms_lookup (ls : List (List (String × Nat))) :
    ∀ (m : String → Option Nat) (k : String),
      (ls.foldl addRooms m) k =
        (match lookupLast ls.flatten k with
          | some v => some v
          | none => m k) := by
  induction ls with
  | nil => intro m k; simp [lookupLast]
  | cons l ls ih =>
      intro m k
      rw [List.foldl_cons, ih (addRooms m l) k, List.flatten_cons, lookupLast_append l ls.flatten k]
      cases h : lookupLast ls.flatten k with
      | some v => rfl
      | none => rw [addRooms_lookupLast]

end AdminController

open AdminController

/-- Claim C4: a broadcast captures each per-room outcome independently with
settle-all semantics — when the registry is consulted, `/rooms` returns the
aggregate of exactly the fulfilled results and logs one warning per rejected
(failed or deadline-exceeded) room, `/global/event` answers "ok" with one
warning per rejected room, and neither fails as a whole; in particular with 5
handles of which 2 deadline-exceed and 3 succeed, the 3 successes are returned
and exactly 2 warnings are logged. -/
theorem claim4_broadcast_partial_failure :
    (∀ rs : List (Settled (List (String × Nat))),
      getRoomsList (Except.ok rs) =
        Except.ok ((fulfilledValues rs).foldl addRooms (fun _ => none), rejectedCount rs))
    ∧ (∀ evs : List (Settled Unit),
      dispatchGlobalEvent (Except.ok evs) = Except.ok ("ok", rejectedCount evs))
    ∧ ((collectRooms
          [Settled.fulfilled [("r1", 10)], Settled.rejected "deadline exceeded",
            Settled.fulfilled [("r2", 20), ("r3", 30)], Settled.rejected "deadline exceeded",
            Settled.fulfilled [("r4", 5)]] (fun _ => none) 0).1 "r1" = some 10
      ∧ (collectRooms
          [Settled.fulfilled [("r1", 10)], Settled.rejected "deadline exceeded",
            Settled.fulfilled [("r2", 20), ("r3", 30)], Settled.rejected "deadline exceeded",
            Settled.fulfilled [("r4", 5)]] (fun _ => none) 0).1 "r2" = some 20
      ∧ (collectRooms
          [Settled.fulfilled [("r1", 10)], Settled.rejected "deadline exceeded",
            Settled.fulfilled [("r2", 20), ("r3", 30)], Settled.rejected "deadline exceeded",
            Settled.fulfilled [("r4", 5)]] (fun _ => none) 0).1 "r3" = some 30
      ∧ (collectRooms
          [Settled.fulfilled [("r1", 10)], Settled.rejected "deadline exceeded",
            Settled.fulfilled [("r2", 20), ("r3", 30)], Settled.rejected "deadline exceeded",
            Settled.fulfilled [("r4", 5)]] (fun _ => none) 0).1 "r4" = some 5
      ∧ (collectRooms
          [Settled.fulfilled [("r1", 10)], Settled.rejected "deadline exceeded",
            Settled.fulfilled [("r2", 20), ("r3", 30)], Settled.rejected "deadline exceeded",
            Settled.fulfilled [("r4", 5)]] (fun _ => none) 0).1 "other" = none
      ∧ (collectRooms
          [Settled.fulfilled [("r1", 10)], Settled.rejected "deadline exceeded",
            Settled.fulfilled [("r2", 20), ("r3", 30)], Settled.rejected "deadline exceeded",
            Settled.fulfilled [("r4", 5)]] (fun _ => none) 0).2 = 2) := by
  refine ⟨?_, ?_, by decide⟩
  · intro rs
    show Except.ok (collectRooms rs (fun _ => none) 0) = _
    rw [collectRooms_spec rs (fun _ => none) 0]
    simp
  · intro evs
    show Except.ok (("ok", warnCountFrom 0 evs) : String × Nat) = _
    rw [warnCountFrom_eq evs 0, Nat.zero_add]

/-- Claim C10: in the `/rooms` aggregation, the record value for a room id is
the `nbUsers` attached to the last occurrence of that id across the fulfilled
results in processing order — a later server's count silently overwrites an
earlier one, counts are never summed — and the warning count keeps counting
only rejections, so an id collision is never reported. -/
theorem claim10_last_writer_wins (rs : List (Settled (List (String × Nat)))) (k : String) :
    (collectRooms rs (fun _ => none) 0).1 k = lookupLast (flattenFulfilled rs) k
    ∧ (collectRooms rs (fun _ => none) 0).2 = rejectedCount rs := by
  constructor
  · rw [collectRooms_spec rs (fun _ => none) 0]
    show ((fulfilledValues rs).foldl addRooms (fun _ => none)) k = _
    rw [foldl_addRooms_lookup]
    cases h : lookupLast (fulfilledValues rs).flatten k <;> simp [flattenFulfilled, h]
  · rw [collectRooms_spec rs (fun _ => none) 0]
    simp

namespace pLimit

theorem limiterRunFrom_cons (width : Nat) (acc : LimiterState × List Nat)
    (ev : LimiterEvent) (evs : List LimiterEvent) :
    limiterRunFrom width acc (ev :: evs) =
      limiterRunFrom width
        ((limiterStep width acc.1 ev).1, acc.2 ++ (limiterStep width acc.1 ev).2) evs := rfl

theorem limiterRunFrom_inv (width : Nat) (evs : List LimiterEvent) :
    ∀ acc : LimiterState × List Nat,
      acc.1.activeCount ≤ width →
      (acc.1.queue ≠ [] → acc.1.activeCount = width) →
      (limiterRunFrom width acc evs).1.activeCount ≤ width
      ∧ ((limiterRunFrom width acc evs).1.queue ≠ [] →
          (limiterRunFrom width acc evs).1.activeCount = width)
      ∧ (limiterRunFrom width acc evs).2 ++ (limiterRunFrom width acc evs).1.queue =
          acc.2 ++ acc.1.queue ++ submittedIds evs := by
  induction evs with
  | nil =>
      intro acc h1 h2
      exact ⟨h1, h2, by simp [limiterRunFrom, submittedIds]⟩
  | cons ev evs ih =>
      intro acc h1 h2
      rw [limiterRunFrom_cons]
      cases ev with
      | submit id =>
          by_cases hlt : acc.1.activeCount < width
          · have hq : acc.1.queue = [] := by
              by_contra hne
              have := h2 hne
              omega
            have hstep : limiterStep width acc.1 (LimiterEvent.submit id) =
                ({ acc.1 with activeCount := acc.1.activeCount + 1 }, [id]) := by
              simp [limiterStep, hlt]
            rw [hstep]
            have hres := ih ({ acc.1 with activeCount := acc.1.activeCount + 1 }, acc.2 ++ [id])
              (by simp; omega)
              (by
                intro hne
                simp at hne
                rw [hq] at hne
                exact absurd rfl hne)
            refine ⟨hres.1, hres.2.1, ?_⟩
            rw [hres.2.2]
            simp [hq, submittedIds]
          · have heq : acc.1.activeCount = width := by omega
            have hstep : limiterStep width acc.1 (LimiterEvent.submit id) =
                ({ acc.1 with queue := acc.1.queue ++ [id] }, []) := by
              simp [limiterStep, hlt]
            rw [hstep]
            have hres := ih ({ acc.1 with queue := acc.1.queue ++ [id] }, acc.2 ++ [])
              (by simpa using h1)
              (by intro _; simpa using heq)
            refine ⟨hres.1, hres.2.1, ?_⟩
            rw [hres.2.2]
            simp [submittedIds]
      | complete =>
          cases hac : acc.1.activeCount with
          | zero =>
              have hstep : limiterStep width acc.1 LimiterEvent.complete = (acc.1, []) := by
                simp [limiterStep, hac]
              rw [hstep]
              have hres := ih (acc.1, acc.2 ++ []) h1 h2
              refine ⟨hres.1, hres.2.1, ?_⟩
              rw [hres.2.2]
              simp [submittedIds]
          | succ a =>
              cases hqu : acc.1.queue with
              | nil =>
                  have hstep : limiterStep width acc.1 LimiterEvent.complete =
                      ({ activeCount := a, queue := [] }, []) := by
                    simp [limiterStep, hac, hqu]
                  rw [hstep]
                  have hres := ih ({ activeCount := a, queue := [] }, acc.2 ++ [])
                    (by simp; omega)
                    (by intro hne; exact absurd rfl hne)
                  refine ⟨hres.1, hres.2.1, ?_⟩
                  rw [hres.2.2]
                  simp [hqu, submittedIds]
              | cons hd t =>
                  have hw : acc.1.activeCount = width := h2 (by simp [hqu])
                  have hstep : limiterStep width acc.1 LimiterEvent.complete =
                      ({ activeCount := a + 1, queue := t }, [hd]) := by
                    simp [limiterStep, hac, hqu]
                  rw [hstep]
                  have hres := ih ({ activeCount := a + 1, queue := t }, acc.2 ++ [hd])
                    (by simp; omega)
                    (by intro _; simp; omega)
                  refine ⟨hres.1, hres.2.1, ?_⟩
                  rw [hres.2.2]
                  simp [hqu, submittedIds]

end pLimit

/-- Claim C9: with the singleton limiter of width `limitWidth = 10` that all
resource-sync calls share, any trace of submissions and completions — of any
length, e.g. 25 scheduled calls — keeps the number of in-flight calls at or
below 10 (the bound holds in every reachable state, since every prefix of a
trace is itself a trace), and the tasks started so far followed by the tasks
still queued always equal the submissions in submission order (FIFO
admission). -/
theorem claim9_limiter_bound (evs : List pLimit.LimiterEvent) :
    (pLimit.limiterRun limitWidth evs).1.activeCount ≤ limitWidth
    ∧ (pLimit.limiterRun limitWidth evs).2 ++ (pLimit.limiterRun limitWidth evs).1.queue =
        pLimit.submittedIds evs := by
  have h := pLimit.limiterRunFrom_inv limitWidth evs (⟨0, []⟩, [])
    (by simp) (by intro hne; exact absurd rfl hne)
  refine ⟨h.1, ?_⟩
  have h3 := h.2.2
  simpa [pLimit.limiterRun] using h3
